import Mathlib

/-!
Verification of the user-identity core of `src/rbac/user.rs` (Parseable).

The Rust source is shallowly embedded below.  Randomness (the OS salt
source and the thread-local RNG used for secret generation) is made
explicit: functions that draw a salt take it as an extra argument, and
the secret generator takes an infinite stream of random numbers
`rng : Nat → Nat`.  A Rust panic (`unwrap`, `expect`, `todo!`) is
modelled by returning `none` from an `Option`-typed embedding, so that
"the process aborts" is a first-class, provable outcome.

The argon2 / password-hash crates are external to the repository; the
parts this file needs (PHC string parsing, argon2 hashing, argon2
verification) are modelled from the specification text: hashing is a
deterministic function of the secret and the salt, the hash string is
the self-describing PHC form
`$<algorithm-id>$v=<version>$<params>$<salt>$<hash>`, and verification
re-computes the hash of the candidate using the parameters and salt
embedded in the stored string.
-/

/-- Character-level split on the PHC field separator `$`, matching how the
PHC grammar divides an encoded hash string into fields.  Mirrors the
semantics of splitting a string on a single-character separator. -/
def splitDollar : List Char → List (List Char)
  | [] => [[]]
  | c :: rest =>
    if c = '$' then [] :: splitDollar rest
    else
      match splitDollar rest with
      | [] => [[c]]
      | f :: r => (c :: f) :: r

/-- Modelled from the spec: the parsed form of a PHC-encoded hash string,
`$<algorithm-id>$v=<version>$<params>$<salt>$<hash>` (the
`password_hash` crate type `PasswordHash`).  Fields are kept as raw
character lists. -/
structure PasswordHash where
  algorithm : List Char
  version : List Char
  params : List Char
  salt : List Char
  hashVal : List Char
  deriving Repr, DecidableEq

/-- Modelled from the spec: `PasswordHash::new` of the `password_hash`
crate, restricted to the full five-field PHC form that `gen_hash`
produces.  A string that does not match the grammar yields `none`
(the crate returns a parse error). -/
def PasswordHash.new (s : String) : Option PasswordHash :=
  match splitDollar s.data with
  | [[], alg, ver, params, salt, hv] =>
    if alg ≠ [] ∧ ver.take 2 = ['v', '='] then
      some ⟨alg, ver, params, salt, hv⟩
    else none
  | _ => none

/-- Serialisation of a parsed PHC hash back to its encoded string form. -/
def PasswordHash.render (ph : PasswordHash) : String :=
  String.mk ('$' :: ph.algorithm ++ '$' :: ph.version ++ '$' :: ph.params
    ++ '$' :: ph.salt ++ '$' :: ph.hashVal)

/-- Number of bytes of the UTF-8 encoding of a string; this is what Rust
`str::len` (and hence the argon2 length bound check) measures. -/
def utf8Len (s : String) : Nat :=
  (s.data.map Char.utf8Size).sum

/-- Modelled from the spec: the maximum password length in bytes enforced
by the argon2 algorithm (2 ^ 32 - 1). -/
def argon2MaxPasswordLen : Nat := 2 ^ 32 - 1

/-- Modelled from the spec: the error the argon2 crate returns when it
rejects its input, e.g. when the secret exceeds the length bound the
algorithm enforces. -/
inductive Argon2Error where
  | pwdTooLong
  deriving Repr, DecidableEq

/-- Modelled from the spec: the argon2 key-derivation primitive, as a
deterministic function of the secret and the salt.  The concrete mixing
function is an abstraction of the real memory-hard computation; the
properties the claims need are only determinism in (secret, salt). -/
def argon2Digest (password : String) (salt : List Char) : Nat :=
  (password.data ++ '#' :: salt).foldl
    (fun h c => (h * 131 + c.toNat) % 2 ^ 64) 5381

/-- Rendering of a digest value as a fixed-width decimal character block
(least-significant digit first); stands in for the B64 digest encoding
of the PHC format.  Every produced character is a decimal digit. -/
def digitChar (d : Nat) : Char := Char.ofNat (48 + d)

/-- Fixed-width (20 digit) decimal encoding of a digest value. -/
def encodeDigest (n : Nat) : List Char :=
  (List.range 20).map (fun i => digitChar (n / 10 ^ i % 10))

/-- Modelled from the spec: `Argon2::default().hash_password` -- derives
the digest from the secret and the given salt and encodes algorithm id,
version, cost parameters, salt and digest into one self-describing PHC
string.  Rejects a secret longer than the length bound. -/
def hash_password (password : String) (salt : String) : Except Argon2Error String :=
  if argon2MaxPasswordLen < utf8Len password then
    .error .pwdTooLong
  else
    .ok (PasswordHash.render
      ⟨"argon2id".data, "v=19".data, "m=19456,t=2,p=1".data, salt.data,
        encodeDigest (argon2Digest password salt.data)⟩)

/-- Modelled from the spec: `Argon2::default().verify_password(candidate,
parsed).is_ok()` -- re-computes the digest of the candidate using the
salt embedded in the parsed hash and compares it with the embedded
digest.  A candidate the algorithm rejects verifies as `false`. -/
def verify_password (candidate : String) (ph : PasswordHash) : Bool :=
  if argon2MaxPasswordLen < utf8Len candidate then false
  else encodeDigest (argon2Digest candidate ph.salt) == ph.hashVal

/-- Embeds `verify` of `src/rbac/user.rs`: parses the stored hash with
`PasswordHash::new(password_hash).unwrap()` and runs argon2
verification.  The `unwrap` on a malformed stored hash is a Rust panic,
modelled here by `none`; `some b` is the boolean the function returns
when it does not panic. -/
def verify (password_hash : String) (password : String) : Option Bool :=
  match PasswordHash.new password_hash with
  | none => none
  | some parsed => some (verify_password password parsed)

/-- Embeds `gen_hash` of `src/rbac/user.rs`: draws a salt (made explicit
as the `salt` argument, standing for `SaltString::generate(&mut OsRng)`)
and hashes the password, with `.expect("can hash random alphanumeric")`
on the result.  The `expect` on a rejected input is a Rust panic,
modelled here by `none`. -/
def gen_hash (password : String) (salt : String) : Option String :=
  match hash_password password salt with
  | .error _ => none
  | .ok hashcode => some hashcode

theorem splitDollar_cons_dollar (l : List Char) :
    splitDollar ('$' :: l) = [] :: splitDollar l := by
  simp [splitDollar]

theorem splitDollar_ne_nil (l : List Char) : splitDollar l ≠ [] := by
  induction l with
  | nil => simp [splitDollar]
  | cons c rest ih =>
    by_cases h : c = '$'
    · subst h; simp [splitDollar]
    · simp only [splitDollar, if_neg h]
      cases hs : splitDollar rest with
      | nil => simp
      | cons f r => simp

theorem splitDollar_append (l₁ l₂ : List Char) (h : '$' ∉ l₁) :
    splitDollar (l₁ ++ '$' :: l₂) = l₁ :: splitDollar l₂ := by
  induction l₁ with
  | nil => simpa using splitDollar_cons_dollar l₂
  | cons c rest ih =>
    have hc : c ≠ '$' := fun hc => h (by simp [hc])
    have hrest : '$' ∉ rest := fun hm => h (by simp [hm])
    simp only [List.cons_append, splitDollar, if_neg hc]
    rw [show rest.append ('$' :: l₂) = rest ++ '$' :: l₂ from rfl, ih hrest]

theorem splitDollar_no_dollar (l : List Char) (h : '$' ∉ l) :
    splitDollar l = [l] := by
  induction l with
  | nil => simp [splitDollar]
  | cons c rest ih =>
    have hc : c ≠ '$' := fun hc => h (by simp [hc])
    have hrest : '$' ∉ rest := fun hm => h (by simp [hm])
    simp only [splitDollar, if_neg hc, ih hrest]

theorem digitChar_ne_dollar : ∀ d < 10, digitChar d ≠ '$' := by decide

theorem encodeDigest_no_dollar (n : Nat) : '$' ∉ encodeDigest n := by
  intro hmem
  simp only [encodeDigest, List.mem_map] at hmem
  obtain ⟨i, -, hi⟩ := hmem
  exact digitChar_ne_dollar (n / 10 ^ i % 10) (Nat.mod_lt _ (by decide)) hi

/-- Parsing inverts rendering for every hash whose fields fit the
grammar: nonempty algorithm id, version field of the shape `v=...`, and
no separator character inside any field. -/
theorem PasswordHash.new_render (ph : PasswordHash)
    (halg : ph.algorithm ≠ []) (hver : ph.version.take 2 = ['v', '='])
    (h1 : '$' ∉ ph.algorithm) (h2 : '$' ∉ ph.version) (h3 : '$' ∉ ph.params)
    (h4 : '$' ∉ ph.salt) (h5 : '$' ∉ ph.hashVal) :
    PasswordHash.new (PasswordHash.render ph) = some ph := by
  have hdata : (PasswordHash.render ph).data
      = '$' :: (ph.algorithm ++ '$' :: (ph.version ++ '$' :: (ph.params
        ++ '$' :: (ph.salt ++ '$' :: ph.hashVal)))) := by
    simp [PasswordHash.render]
  rw [PasswordHash.new, hdata, splitDollar_cons_dollar,
    splitDollar_append _ _ h1, splitDollar_append _ _ h2,
    splitDollar_append _ _ h3, splitDollar_append _ _ h4,
    splitDollar_no_dollar _ h5]
  simp [halg, hver]

/-- Core round-trip fact shared by several claims: hashing a secret that
the algorithm accepts, with any salt free of the field separator,
produces a stored hash that parses back and verifies the same secret. -/
theorem gen_hash_verify_core (password salt : String)
    (hs : '$' ∉ salt.data) (hp : utf8Len password ≤ argon2MaxPasswordLen) :
    ∃ h, gen_hash password salt = some h ∧ verify h password = some true := by
  have hnot : ¬ argon2MaxPasswordLen < utf8Len password := Nat.not_lt.mpr hp
  refine ⟨PasswordHash.render ⟨"argon2id".data, "v=19".data,
    "m=19456,t=2,p=1".data, salt.data,
    encodeDigest (argon2Digest password salt.data)⟩, ?_, ?_⟩
  · simp [gen_hash, hash_password, hnot]
  · rw [verify, PasswordHash.new_render]
    · simp [verify_password, hnot]
    · show "argon2id".data ≠ []
      decide
    · show ("v=19".data).take 2 = ['v', '=']
      decide
    · show '$' ∉ "argon2id".data
      decide
    · show '$' ∉ "v=19".data
      decide
    · show '$' ∉ "m=19456,t=2,p=1".data
      decide
    · exact hs
    · exact encodeDigest_no_dollar _

/-- Embeds `Basic` of `src/rbac/user.rs`: a locally-managed account with a
stored credential hash. -/
structure Basic where
  username : String
  password_hash : String
  deriving Repr, DecidableEq

/-- Embeds `UserInfo` of `src/rbac/user.rs`: the normalized identity
profile, every field independently optional.  The `url::Url` of the
`picture` field is kept as its string form. -/
structure UserInfo where
  name : Option String
  preferred_username : Option String
  picture : Option String
  email : Option String
  gender : Option String
  updated_at : Option Int
  groups : Option (List String)
  deriving Repr, DecidableEq

/-- Embeds `OAuth` of `src/rbac/user.rs`: a federated identity with its
subject id and provider profile. -/
structure OAuth where
  userid : String
  user_info : UserInfo
  deriving Repr, DecidableEq

/-- Embeds `UserType` of `src/rbac/user.rs`: the tagged union of the two
identity kinds. -/
inductive UserType where
  | Native (b : Basic)
  | OAuth (o : OAuth)
  deriving Repr, DecidableEq

/-- Embeds `User` of `src/rbac/user.rs`: one identity kind plus the
`HashSet<String>` of role names, modelled as a finite set. -/
structure User where
  ty : UserType
  roles : Finset String
  deriving DecidableEq

/-- Embeds `PassCode` of `src/rbac/user.rs`: a freshly generated
plaintext secret paired with its hash. -/
structure PassCode where
  password : String
  hash : String
  deriving Repr, DecidableEq

/-- The 62-character alphabet of the `Alphanumeric` distribution of the
rand crate: uppercase letters, lowercase letters, decimal digits. -/
def alphanumericChars : List Char :=
  "ABCDEFGHIJKLMNOPQRSTUVWXYZabcdefghijklmnopqrstuvwxyz0123456789".data

/-- Modelled from the spec: `Alphanumeric.sample_string(rng, len)` of the
rand crate -- draws `len` characters from the alphanumeric alphabet,
with the random source made explicit as a stream of numbers. -/
def sampleAlphanumeric (rng : Nat → Nat) (len : Nat) : String :=
  String.mk ((List.range len).map (fun i => alphanumericChars[rng i % 62]!))

/-- Embeds `Basic::gen_new_password` of `src/rbac/user.rs`: samples a
16-character alphanumeric password from the thread RNG and hashes it via
`gen_hash` (whose OS-drawn salt is the explicit `salt` argument).  A
panic inside `gen_hash` propagates as `none`. -/
def Basic.gen_new_password (rng : Nat → Nat) (salt : String) : Option PassCode :=
  let password := sampleAlphanumeric rng 16
  match gen_hash password salt with
  | none => none
  | some hash => some ⟨password, hash⟩

/-- Embeds `Basic::verify_password` of `src/rbac/user.rs`. -/
def Basic.verify_password (b : Basic) (password : String) : Option Bool :=
  verify b.password_hash password

/-- Embeds `User::new_basic` of `src/rbac/user.rs`: generates a
credential, builds a `Native` identity with an empty role set, and
returns the user together with the plaintext password. -/
def User.new_basic (username : String) (rng : Nat → Nat) (salt : String) :
    Option (User × String) :=
  match Basic.gen_new_password rng salt with
  | none => none
  | some pc =>
    some (⟨UserType.Native ⟨username, pc.hash⟩, ∅⟩, pc.password)

/-- Embeds `User::new_oauth` of `src/rbac/user.rs`: the subject id is
`user_info.name.clone().unwrap_or(username)`. -/
def User.new_oauth (username : String) (roles : Finset String)
    (user_info : UserInfo) : User :=
  ⟨UserType.OAuth ⟨user_info.name.getD username, user_info⟩, roles⟩

/-- Embeds `User::username` of `src/rbac/user.rs`: resolves to
`Basic.username` or `OAuth.userid` by variant. -/
def User.username : User → String
  | ⟨UserType.Native b, _⟩ => b.username
  | ⟨UserType.OAuth o, _⟩ => o.userid

/-- Embeds `User::is_oauth` of `src/rbac/user.rs`. -/
def User.is_oauth (u : User) : Bool :=
  match u.ty with
  | UserType.OAuth _ => true
  | UserType.Native _ => false

/-- Embeds `User::roles` of `src/rbac/user.rs`: the role set iterated
into a vector (named `rolesList` because the field keeps the source name
`roles`).  `HashSet` iteration order is arbitrary and not contractually
meaningful; the embedding fixes a canonical order. -/
def User.rolesList (u : User) : List String :=
  u.roles.sort (· ≤ ·)

/-- Modelled from the spec: insertion of a role name into the public
`roles` field via `HashSet::insert` (the mutation the role-set
invariant quantifies over; the set type deduplicates by construction). -/
def User.addRole (u : User) (r : String) : User :=
  ⟨u.ty, insert r u.roles⟩

/-- Modelled from the spec: the slice of the ambient `PARSEABLE.options`
configuration singleton that `get_admin_user` reads -- the admin
username and password from process configuration. -/
structure Options where
  username : String
  password : String
  deriving Repr, DecidableEq

/-- Embeds `get_admin_user` of `src/rbac/user.rs`: reads the admin
username and password from configuration (made explicit as the
`options` argument), hashes the password, and builds a `Native` user
with role set `{"admin"}`.  A panic inside `gen_hash` propagates as
`none`. -/
def get_admin_user (options : Options) (salt : String) : Option User :=
  let username := options.username
  let password := options.password
  match gen_hash password salt with
  | none => none
  | some hashcode =>
    some ⟨UserType.Native ⟨username, hashcode⟩, {"admin"}⟩

namespace openid

/-- Modelled from the spec: `openid::Userinfo`, the identity-provider
claim set -- a subject identifier plus the optional descriptive claims
this core maps (name, preferred username, picture, email, gender,
updated-at, group memberships). -/
structure Userinfo where
  sub : Option String
  name : Option String
  preferred_username : Option String
  picture : Option String
  email : Option String
  gender : Option String
  updated_at : Option Int
  groups : Option (List String)
  deriving Repr, DecidableEq

/-- Modelled from the spec: the typed error of
`StandardClaimsSubject::sub` for a missing subject claim. -/
inductive StandardClaimsSubjectMissing where
  | missing
  deriving Repr, DecidableEq

/-- Modelled from the spec: `openid::StandardClaims`, carrying the
provider claim set. -/
structure StandardClaims where
  userinfo : Userinfo
  deriving Repr, DecidableEq

end openid

/-- Embeds `MyClaims` of `src/rbac/user.rs`: an optional group claim
plus the flattened standard claims. -/
structure MyClaims where
  group : Option (List String)
  standard_claims : openid.StandardClaims
  deriving Repr, DecidableEq

/-- Embeds the `StandardClaimsSubject` impl for `MyClaims` in
`src/rbac/user.rs`: the body is `todo!()`, an unconditional Rust panic,
modelled by `none`.  A returned value would be
`some (Except.ok subject)` or `some (Except.error e)`. -/
def MyClaims.sub (_ : MyClaims) :
    Option (Except openid.StandardClaimsSubjectMissing String) :=
  none

/-- Embeds the `From<openid::Userinfo> for UserInfo` impl of
`src/rbac/user.rs`: each known claim is copied across unchanged and
`groups` is set to `None`. -/
def UserInfo.from_userinfo (user : openid.Userinfo) : UserInfo :=
  { name := user.name
    preferred_username := user.preferred_username
    picture := user.picture
    email := user.email
    gender := user.gender
    updated_at := user.updated_at
    groups := none }

theorem alphanumericChars_getElem_mem : ∀ k < 62, alphanumericChars[k]! ∈ alphanumericChars := by
  decide

theorem alphanumericChars_utf8Size : ∀ k < 62, (alphanumericChars[k]!).utf8Size = 1 := by
  decide

theorem sampleAlphanumeric_data (rng : Nat → Nat) (len : Nat) :
    (sampleAlphanumeric rng len).data
      = (List.range len).map (fun i => alphanumericChars[rng i % 62]!) := rfl

theorem sampleAlphanumeric_mem (rng : Nat → Nat) (len : Nat) :
    ∀ c ∈ (sampleAlphanumeric rng len).data, c ∈ alphanumericChars := by
  intro c hc
  rw [sampleAlphanumeric_data, List.mem_map] at hc
  obtain ⟨i, -, rfl⟩ := hc
  exact alphanumericChars_getElem_mem _ (Nat.mod_lt _ (by decide))

theorem sum_map_utf8Size_of_ascii {l : List Char}
    (h : ∀ c ∈ l, Char.utf8Size c = 1) :
    (l.map Char.utf8Size).sum = l.length := by
  induction l with
  | nil => simp
  | cons c t ih =>
    simp_all
    omega

theorem utf8Len_sampleAlphanumeric (rng : Nat → Nat) (len : Nat) :
    utf8Len (sampleAlphanumeric rng len) = len := by
  rw [utf8Len, sum_map_utf8Size_of_ascii, sampleAlphanumeric_data,
    List.length_map, List.length_range]
  intro c hc
  rw [sampleAlphanumeric_data, List.mem_map] at hc
  obtain ⟨i, -, rfl⟩ := hc
  exact alphanumericChars_utf8Size _ (Nat.mod_lt _ (by decide))

theorem dollar_not_mem_sampleAlphanumeric (rng : Nat → Nat) (len : Nat) :
    '$' ∉ (sampleAlphanumeric rng len).data := by
  intro hmem
  have := sampleAlphanumeric_mem rng len '$' hmem
  revert this
  decide

theorem dollar_mem_render (ph : PasswordHash) :
    '$' ∈ (PasswordHash.render ph).data := by
  show '$' ∈ '$' :: _
  exact List.mem_cons_self _ _

/-- C1: for a stored-hash string that does not parse per the PHC grammar,
`verify` does not return a recoverable typed error and does not return
`false`: it panics (the `unwrap` aborts, modelled by `none`).  At the
malformed stored hash "not-a-valid-hash" with candidate "anything", the
embedded `verify` evaluates to the panic outcome, and in particular the
malformed input is not silently reported as a non-match. -/
theorem verify_malformed_hash_panics :
    verify "not-a-valid-hash" "anything" = none ∧
    verify "not-a-valid-hash" "anything" ≠ some false := by
  decide

/-- C2: for every secret and every salt the hash operation may draw (a
salt never contains the PHC field separator), provided the secret is
within the length bound the algorithm accepts, hashing the secret and
then verifying the secret against the produced hash succeeds. -/
theorem hash_then_verify_roundtrip (password salt : String)
    (hs : '$' ∉ salt.data) (hp : utf8Len password ≤ argon2MaxPasswordLen) :
    ∃ h, gen_hash password salt = some h ∧ verify h password = some true :=
  gen_hash_verify_core password salt hs hp

theorem hash_then_verify_roundtrip_witness :
    ∃ h, gen_hash "secret" "somesalt" = some h ∧
      verify h "secret" = some true :=
  hash_then_verify_roundtrip "secret" "somesalt" (by decide) (by decide)

/-- C3: for every admin username and password from process configuration
(and every salt the hash operation may draw, with the password within
the length bound), `get_admin_user` returns a user with a `Native`
(local) identity carrying that username, role set exactly {"admin"},
and a stored credential hash that verifies against the password. -/
theorem get_admin_user_spec (username password salt : String)
    (hs : '$' ∉ salt.data) (hp : utf8Len password ≤ argon2MaxPasswordLen) :
    ∃ u hash, get_admin_user ⟨username, password⟩ salt = some u ∧
      u.ty = UserType.Native ⟨username, hash⟩ ∧
      u.roles = {"admin"} ∧
      u.username = username ∧
      u.is_oauth = false ∧
      verify hash password = some true := by
  obtain ⟨h, hg, hv⟩ := gen_hash_verify_core password salt hs hp
  refine ⟨⟨UserType.Native ⟨username, h⟩, {"admin"}⟩, h, ?_, rfl, rfl, rfl, rfl, hv⟩
  simp [get_admin_user, hg]

theorem get_admin_user_spec_witness :
    ∃ u hash, get_admin_user ⟨"root", "pw"⟩ "somesalt" = some u ∧
      u.ty = UserType.Native ⟨"root", hash⟩ ∧
      u.roles = {"admin"} ∧
      u.username = "root" ∧
      u.is_oauth = false ∧
      verify hash "pw" = some true :=
  get_admin_user_spec "root" "pw" "somesalt" (by decide) (by decide)

/-- C4: for every fallback username, role set and profile, `new_oauth`
builds a federated (`OAuth`) identity whose subject id is the profile
name when present and the fallback username otherwise, keeps the given
role set, reports `is_oauth` as true, and resolves `username` to that
subject id. -/
theorem new_oauth_spec (username : String) (roles : Finset String)
    (user_info : UserInfo) :
    (User.new_oauth username roles user_info).ty
      = UserType.OAuth ⟨user_info.name.getD username, user_info⟩ ∧
    (User.new_oauth username roles user_info).roles = roles ∧
    (User.new_oauth username roles user_info).is_oauth = true ∧
    (User.new_oauth username roles user_info).username
      = user_info.name.getD username :=
  ⟨rfl, rfl, rfl, rfl⟩

/-- C5: for every username (and any draws of the RNG stream and of the
salt), `new_basic` returns a user and a plaintext secret such that the
user has a `Native` (local) identity with an empty role set, `username`
resolves to the given name, `is_oauth` is false, and the stored
credential hash is exactly the hash `gen_hash` produces for the
returned plaintext with the drawn salt -- and is never the plaintext
itself. -/
theorem new_basic_spec (username : String) (rng : Nat → Nat) (salt : String) :
    ∃ u pw h, User.new_basic username rng salt = some (u, pw) ∧
      u.ty = UserType.Native ⟨username, h⟩ ∧
      u.roles = ∅ ∧
      u.username = username ∧
      u.is_oauth = false ∧
      gen_hash pw salt = some h ∧
      h ≠ pw := by
  have hnot : ¬ argon2MaxPasswordLen < utf8Len (sampleAlphanumeric rng 16) := by
    rw [utf8Len_sampleAlphanumeric]
    decide
  have hg : gen_hash (sampleAlphanumeric rng 16) salt
      = some (PasswordHash.render ⟨"argon2id".data, "v=19".data,
        "m=19456,t=2,p=1".data, salt.data,
        encodeDigest (argon2Digest (sampleAlphanumeric rng 16) salt.data)⟩) := by
    simp [gen_hash, hash_password, hnot]
  refine ⟨⟨UserType.Native ⟨username, _⟩, ∅⟩, sampleAlphanumeric rng 16, _,
    ?_, rfl, rfl, rfl, rfl, hg, ?_⟩
  · simp [User.new_basic, Basic.gen_new_password, hg]
  · intro heq
    have hd := dollar_mem_render ⟨"argon2id".data, "v=19".data,
      "m=19456,t=2,p=1".data, salt.data,
      encodeDigest (argon2Digest (sampleAlphanumeric rng 16) salt.data)⟩
    rw [heq] at hd
    exact dollar_not_mem_sampleAlphanumeric rng 16 hd

/-- C6: every secret the generator produces at the default length is a
string of exactly 16 characters, each drawn from the alphanumeric
alphabet; the surrounding `gen_new_password` always succeeds at this
length. -/
theorem gen_new_password_spec (rng : Nat → Nat) (salt : String) :
    ∃ pc, Basic.gen_new_password rng salt = some pc ∧
      pc.password.length = 16 ∧
      ∀ c ∈ pc.password.data, c ∈ alphanumericChars := by
  have hnot : ¬ argon2MaxPasswordLen < utf8Len (sampleAlphanumeric rng 16) := by
    rw [utf8Len_sampleAlphanumeric]
    decide
  refine ⟨⟨sampleAlphanumeric rng 16,
      PasswordHash.render ⟨"argon2id".data, "v=19".data,
        "m=19456,t=2,p=1".data, salt.data,
        encodeDigest (argon2Digest (sampleAlphanumeric rng 16) salt.data)⟩⟩,
    ?_, ?_, sampleAlphanumeric_mem rng 16⟩
  · simp [Basic.gen_new_password, gen_hash, hash_password, hnot]
  · show (sampleAlphanumeric rng 16).data.length = 16
    rw [sampleAlphanumeric_data, List.length_map, List.length_range]

/-- C7: the claims-to-profile mapping copies each known optional claim
(name, preferred username, picture, email, gender, updated-at) across
unchanged -- so an absent claim stays unset -- and always leaves the
`groups` field unset regardless of the input. -/
theorem from_userinfo_spec (user : openid.Userinfo) :
    (UserInfo.from_userinfo user).name = user.name ∧
    (UserInfo.from_userinfo user).preferred_username = user.preferred_username ∧
    (UserInfo.from_userinfo user).picture = user.picture ∧
    (UserInfo.from_userinfo user).email = user.email ∧
    (UserInfo.from_userinfo user).gender = user.gender ∧
    (UserInfo.from_userinfo user).updated_at = user.updated_at ∧
    (UserInfo.from_userinfo user).groups = none :=
  ⟨rfl, rfl, rfl, rfl, rfl, rfl, rfl⟩

/-- C8: when the hashing algorithm rejects the input secret (the length
bound is exceeded), `gen_hash` does not propagate a typed error: the
`expect` panics and the process aborts (modelled by `none`). -/
theorem gen_hash_panics_on_rejected_input (password salt : String)
    (h : argon2MaxPasswordLen < utf8Len password) :
    gen_hash password salt = none := by
  simp [gen_hash, hash_password, h]

/-- A secret one byte past the argon2 length bound. -/
def longSecret : String := String.mk (List.replicate (2 ^ 32) 'a')

theorem utf8Len_mk (l : List Char) :
    utf8Len (String.mk l) = (l.map Char.utf8Size).sum := rfl

theorem gen_hash_rejected_witness :
    argon2MaxPasswordLen < utf8Len longSecret ∧
    gen_hash longSecret "somesalt" = none := by
  have hlen : utf8Len longSecret = 2 ^ 32 := by
    show utf8Len (String.mk (List.replicate (2 ^ 32) 'a')) = 2 ^ 32
    rw [utf8Len_mk, List.map_replicate,
      show Char.utf8Size 'a' = 1 from rfl,
      List.sum_replicate, smul_eq_mul, Nat.mul_one]
  have h : argon2MaxPasswordLen < utf8Len longSecret := by
    rw [hlen]
    show 2 ^ 32 - 1 < 2 ^ 32
    norm_num
  exact ⟨h, gen_hash_panics_on_rejected_input longSecret "somesalt" h⟩

/-- C9: inserting the same role name twice into a user's role set is the
same as inserting it once; after the insertion the role list contains
exactly one occurrence of the name; and the role list of any user never
repeats a member. -/
theorem role_set_unique (u : User) (r : String) :
    (u.addRole r).addRole r = u.addRole r ∧
    (u.addRole r).rolesList.count r = 1 ∧
    u.rolesList.Nodup := by
  refine ⟨?_, ?_, Finset.sort_nodup _ _⟩
  · simp [User.addRole, Finset.insert_idem]
  · exact List.count_eq_one_of_mem (Finset.sort_nodup _ _)
      (by simp [User.rolesList, User.addRole, Finset.mem_sort])

/-- C10: the subject accessor of `MyClaims` is an unimplemented
placeholder (`todo!()`): on every input it panics (the `none` outcome),
so no input yields a subject identifier or the typed
subject-missing error. -/
theorem myclaims_sub_always_panics (c : MyClaims) :
    MyClaims.sub c = none := rfl
